import Mathlib

/-!
Shallow embedding of the `git-fix-eof-newline` tool (Rust sources
`src/lib.rs` and `src/main.rs`) and proofs about its specification.

Byte sequences are modelled as `List Nat` (one entry per byte); `10` is
line-feed (`\n`, 0x0A) and `13` is carriage-return (`\r`, 0x0D).
-/

namespace NoNewline

/-- Rust `bytes.ends_with(suffix)`: `suffix` is a suffix of `bytes`. -/
def bytesEndsWith (bytes suffix : List Nat) : Bool :=
  List.isSuffixOf suffix bytes

/-- `ends_with_newline` from `src/lib.rs`: `bytes.ends_with(b"\n")`. -/
def ends_with_newline (bytes : List Nat) : Bool :=
  bytesEndsWith bytes [10]

/-- `strip_one_trailing_newline` from `src/lib.rs`.  The Rust function
mutates its argument and returns a `bool`; here it returns the new byte
sequence together with that boolean.  `truncate new_len` is `List.take`. -/
def strip_one_trailing_newline (bytes : List Nat) : List Nat × Bool :=
  if bytesEndsWith bytes [13, 10] then
    (bytes.take (bytes.length - 2), true)
  else if bytesEndsWith bytes [10] then
    (bytes.take (bytes.length - 1), true)
  else
    (bytes, false)

/-- `added_eof_newline` from `src/lib.rs`. -/
def added_eof_newline (old_bytes new_bytes : List Nat) : Bool :=
  !ends_with_newline old_bytes && ends_with_newline new_bytes

/-! Basic facts about the byte-level functions. -/

theorem bytesEndsWith_iff (bytes suffix : List Nat) :
    bytesEndsWith bytes suffix = true ↔ suffix <:+ bytes := by
  simp [bytesEndsWith, List.isSuffixOf_iff_suffix]

theorem ends_with_newline_iff (bytes : List Nat) :
    ends_with_newline bytes = true ↔ [10] <:+ bytes := by
  simp [ends_with_newline, bytesEndsWith_iff]

theorem suffix_single_iff (b : Nat) (bytes : List Nat) :
    [b] <:+ bytes ↔ bytes.getLast? = some b := by
  constructor
  · rintro ⟨l, rfl⟩
    simp [List.getLast?_append]
  · intro h
    rcases List.eq_nil_or_concat bytes with rfl | ⟨l, a, rfl⟩
    · simp at h
    · simp [List.getLast?_concat] at h
      exact ⟨l, by simp [h]⟩

theorem crlf_suffix_length {bytes : List Nat} (h : [13, 10] <:+ bytes) :
    2 ≤ bytes.length := by
  rcases h with ⟨l, rfl⟩
  simp

theorem lf_suffix_length {bytes : List Nat} (h : [10] <:+ bytes) :
    1 ≤ bytes.length := by
  rcases h with ⟨l, rfl⟩
  simp

theorem crlf_suffix_imp_lf {bytes : List Nat} (h : [13, 10] <:+ bytes) :
    [10] <:+ bytes := by
  rcases h with ⟨l, rfl⟩
  exact ⟨l ++ [13], by simp⟩

theorem suffix_pair_iff (x y a b : Nat) (l : List Nat) :
    [x, y] <:+ (l ++ [a, b]) ↔ x = a ∧ y = b := by
  constructor
  · rintro ⟨l1, h⟩
    have hlen : l1.length = l.length := by
      have := congrArg List.length h
      simp at this
      omega
    have := List.append_inj_right h hlen
    simp at this
    exact this
  · rintro ⟨rfl, rfl⟩
    exact ⟨l, rfl⟩

theorem suffix_single_append_iff (x a : Nat) (l : List Nat) :
    [x] <:+ (l ++ [a]) ↔ x = a := by
  constructor
  · rintro ⟨l1, h⟩
    have hlen : l1.length = l.length := by
      have := congrArg List.length h
      simp at this
      omega
    have := List.append_inj_right h hlen
    simp at this
    exact this
  · rintro rfl
    exact ⟨l, rfl⟩

theorem suffix_pair_single (x y a : Nat) : ¬ ([x, y] <:+ [a]) := by
  rintro ⟨l1, h⟩
  have := congrArg List.length h
  simp at this

theorem take_append_pair (l : List Nat) (a b : Nat) :
    (l ++ [a, b]).take (l.length + 1) = l ++ [a] := by
  have : (l ++ [a, b]).take (l.length + 1) = l ++ ([a, b].take 1) :=
    List.take_append 1
  simpa using this

theorem take_append_single (l : List Nat) (a : Nat) :
    (l ++ [a]).take l.length = l := by
  simp

/-! Claims about the Newline Predicate component (`src/lib.rs`). -/

/-- Claim C5: `added_eof_newline old new` is true iff `old` does not end
in a line-feed byte (0x0A) and `new` does; in particular it holds for
`old = "a", new = "a\n"` and `old = "", new = "\n"`, and fails for
`old = "a\n", new = "a\n"` and `old = "a\n", new = "a"`. -/
theorem added_eof_newline_spec :
    (∀ old new : List Nat,
      added_eof_newline old new = true ↔
        (old.getLast? ≠ some 10 ∧ new.getLast? = some 10)) ∧
    added_eof_newline [97] [97, 10] = true ∧
    added_eof_newline [] [10] = true ∧
    added_eof_newline [97, 10] [97, 10] = false ∧
    added_eof_newline [97, 10] [97] = false := by
  refine ⟨?_, by decide, by decide, by decide, by decide⟩
  intro old new
  have h1 := ends_with_newline_iff old
  have h2 := ends_with_newline_iff new
  rw [suffix_single_iff] at h1 h2
  constructor
  · intro h
    simp [added_eof_newline] at h
    exact ⟨fun hc => by simp [h1.2 hc] at h, h2.1 (by simpa using h.2)⟩
  · rintro ⟨hold, hnew⟩
    have ho : ends_with_newline old = false := by
      rcases hq : ends_with_newline old with _ | _
      · rfl
      · exact absurd (h1.1 hq) hold
    simp [added_eof_newline, ho, h2.2 hnew]

/-- Claim C6: `strip_one_trailing_newline` removes exactly the final two
bytes when the input ends with carriage-return+line-feed, exactly the
final byte when it ends with line-feed not preceded by carriage-return,
and otherwise returns the input unchanged with `changed = false`; the
result is always the input with at most two bytes (one logical
terminator) removed, and two bytes are removed only in the CRLF case. -/
theorem strip_one_trailing_newline_spec :
    ∀ b : List Nat,
      (bytesEndsWith b [13, 10] = true →
        strip_one_trailing_newline b = (b.take (b.length - 2), true) ∧
        (strip_one_trailing_newline b).1.length + 2 = b.length) ∧
      (bytesEndsWith b [10] = true → bytesEndsWith b [13, 10] = false →
        strip_one_trailing_newline b = (b.take (b.length - 1), true) ∧
        (strip_one_trailing_newline b).1.length + 1 = b.length) ∧
      (bytesEndsWith b [10] = false →
        strip_one_trailing_newline b = (b, false)) ∧
      b.length ≤ (strip_one_trailing_newline b).1.length + 2 ∧
      (b.length = (strip_one_trailing_newline b).1.length + 2 →
        bytesEndsWith b [13, 10] = true) := by
  intro b
  refine ⟨?_, ?_, ?_, ?_, ?_⟩
  · intro h
    have hlen : 2 ≤ b.length := crlf_suffix_length ((bytesEndsWith_iff b _).1 h)
    constructor
    · simp [strip_one_trailing_newline, h]
    · simp [strip_one_trailing_newline, h]
      omega
  · intro h hc
    have hlen : 1 ≤ b.length := lf_suffix_length ((bytesEndsWith_iff b _).1 h)
    constructor
    · simp [strip_one_trailing_newline, h, hc]
    · simp [strip_one_trailing_newline, h, hc]
      omega
  · intro h
    have hc : bytesEndsWith b [13, 10] = false := by
      rcases hcr : bytesEndsWith b [13, 10] with _ | _
      · rfl
      · have := crlf_suffix_imp_lf ((bytesEndsWith_iff b _).1 hcr)
        rw [← bytesEndsWith_iff] at this
        rw [this] at h
        exact absurd h (by simp)
    simp [strip_one_trailing_newline, h, hc]
  · by_cases h1 : bytesEndsWith b [13, 10] = true
    · have := crlf_suffix_length ((bytesEndsWith_iff b _).1 h1)
      simp [strip_one_trailing_newline, h1]
      omega
    · by_cases h2 : bytesEndsWith b [10] = true
      · simp [strip_one_trailing_newline, h1, h2]
        omega
      · simp [strip_one_trailing_newline, h1, h2]
  · intro hlen
    by_cases h1 : bytesEndsWith b [13, 10] = true
    · exact h1
    · by_cases h2 : bytesEndsWith b [10] = true
      · have h3 : 1 ≤ b.length := lf_suffix_length ((bytesEndsWith_iff b _).1 h2)
        simp [strip_one_trailing_newline, h1, h2] at hlen
        omega
      · simp [strip_one_trailing_newline, h1, h2] at hlen

/-- Witness for C6: the three branch hypotheses are each satisfiable. -/
theorem strip_one_trailing_newline_spec_witness :
    strip_one_trailing_newline [97, 13, 10] =
      (([97, 13, 10] : List Nat).take 1, true) ∧
    strip_one_trailing_newline [97, 10] =
      (([97, 10] : List Nat).take 1, true) ∧
    strip_one_trailing_newline [97] = ([97], false) :=
  ⟨((strip_one_trailing_newline_spec [97, 13, 10]).1 (by decide)).1,
   (((strip_one_trailing_newline_spec [97, 10]).2.1 (by decide) (by decide))).1,
   (strip_one_trailing_newline_spec [97]).2.2.1 (by decide)⟩

/-- Claim C9: `strip_one_trailing_newline` is total and its length
subtractions never underflow: the two-byte truncation happens only when
the input ends with CRLF (so its length is at least 2), the one-byte
truncation only when it ends with LF (length at least 1), and the result
length accounts exactly for the bytes removed. -/
theorem strip_one_trailing_newline_safe :
    ∀ b : List Nat,
      (bytesEndsWith b [13, 10] = true → 2 ≤ b.length) ∧
      (bytesEndsWith b [10] = true → 1 ≤ b.length) ∧
      (strip_one_trailing_newline b).1.length +
        (if bytesEndsWith b [13, 10] = true then 2
         else if bytesEndsWith b [10] = true then 1 else 0) = b.length := by
  intro b
  refine ⟨fun h => crlf_suffix_length ((bytesEndsWith_iff b _).1 h),
          fun h => lf_suffix_length ((bytesEndsWith_iff b _).1 h), ?_⟩
  by_cases h1 : bytesEndsWith b [13, 10] = true
  · have := crlf_suffix_length ((bytesEndsWith_iff b _).1 h1)
    simp [strip_one_trailing_newline, h1]
    omega
  · by_cases h2 : bytesEndsWith b [10] = true
    · have := lf_suffix_length ((bytesEndsWith_iff b _).1 h2)
      simp [strip_one_trailing_newline, h1, h2]
      omega
    · simp [strip_one_trailing_newline, h1, h2]

/-- Witness for C9: the branch hypotheses hold at a concrete CRLF input. -/
theorem strip_one_trailing_newline_safe_witness :
    2 ≤ ([13, 10] : List Nat).length ∧ 1 ≤ ([10] : List Nat).length :=
  ⟨(strip_one_trailing_newline_safe [13, 10]).1 (by decide),
   (strip_one_trailing_newline_safe [10]).2.1 (by decide)⟩

/-- Claim C10: `strip_one_trailing_newline` reports `changed = true` iff
`ends_with_newline` holds of the input, and when it reports
`changed = false` it returns the input unchanged. -/
theorem strip_changed_iff_newline :
    ∀ b : List Nat,
      (strip_one_trailing_newline b).2 = ends_with_newline b ∧
      ((strip_one_trailing_newline b).2 = false →
        (strip_one_trailing_newline b).1 = b) := by
  intro b
  by_cases h1 : bytesEndsWith b [13, 10] = true
  · have hlf : bytesEndsWith b [10] = true := by
      rw [bytesEndsWith_iff]
      exact crlf_suffix_imp_lf ((bytesEndsWith_iff b _).1 h1)
    constructor
    · simp [strip_one_trailing_newline, ends_with_newline, h1, hlf]
    · simp [strip_one_trailing_newline, h1]
  · by_cases h2 : bytesEndsWith b [10] = true
    · constructor
      · simp [strip_one_trailing_newline, ends_with_newline, h1, h2]
      · simp [strip_one_trailing_newline, h1, h2]
    · constructor
      · simp [strip_one_trailing_newline, ends_with_newline, h1, h2]
      · simp [strip_one_trailing_newline, h1, h2]

/-- Witness for C10 at a concrete unchanged input. -/
theorem strip_changed_iff_newline_witness :
    (strip_one_trailing_newline [97]).1 = [97] :=
  (strip_changed_iff_newline [97]).2 (by decide)

theorem take_append_zero_pair (l : List Nat) (a b : Nat) :
    (l ++ [a, b]).take l.length = l := by
  simp

/-- Claim C7 (counterexample): the sequence 0x0D 0x0A 0x0A (`"\r\n\n"`)
ends in two line-feed bytes, yet two applications of
`strip_one_trailing_newline` remove three bytes in total (the second
application strips a whole CRLF pair), not two. -/
theorem strip_twice_c7_counterexample :
    bytesEndsWith [13, 10, 10] [10, 10] = true ∧
    (strip_one_trailing_newline [13, 10, 10]).1 = [13, 10] ∧
    (strip_one_trailing_newline
      (strip_one_trailing_newline [13, 10, 10]).1).1 = [] ∧
    ¬ (([13, 10, 10] : List Nat).length -
        (strip_one_trailing_newline
          (strip_one_trailing_newline [13, 10, 10]).1).1.length = 2) := by
  decide

/-- Claim C7 (amended): for every byte sequence ending in two line-feed
bytes, each of the two applications of `strip_one_trailing_newline`
removes exactly one logical terminator: the first removes one byte, and
the second removes one byte — unless the byte before the two line-feeds
is a carriage return, in which case the second removes the two-byte CRLF
pair, for a total of three bytes instead of two. -/
theorem strip_twice_two_lf (l : List Nat) :
    (strip_one_trailing_newline (l ++ [10, 10])).1 = l ++ [10] ∧
    (if l.getLast? = some 13
     then (strip_one_trailing_newline
            (strip_one_trailing_newline (l ++ [10, 10])).1).1 = l.dropLast ∧
          (strip_one_trailing_newline
            (strip_one_trailing_newline (l ++ [10, 10])).1).1.length + 3 =
            (l ++ [10, 10]).length
     else (strip_one_trailing_newline
            (strip_one_trailing_newline (l ++ [10, 10])).1).1 = l ∧
          (strip_one_trailing_newline
            (strip_one_trailing_newline (l ++ [10, 10])).1).1.length + 2 =
            (l ++ [10, 10]).length) := by
  have hcr : bytesEndsWith (l ++ [10, 10]) [13, 10] = false := by
    rcases hq : bytesEndsWith (l ++ [10, 10]) [13, 10] with _ | _
    · rfl
    · have := (bytesEndsWith_iff _ _).1 hq
      rw [suffix_pair_iff] at this
      omega
  have hlf : bytesEndsWith (l ++ [10, 10]) [10] = true := by
    rw [bytesEndsWith_iff]
    exact ⟨l ++ [10], by simp⟩
  have h1 : (strip_one_trailing_newline (l ++ [10, 10])).1 = l ++ [10] := by
    simp [strip_one_trailing_newline, hcr, hlf]
    exact take_append_pair l 10 10
  refine ⟨h1, ?_⟩
  rw [h1]
  rcases List.eq_nil_or_concat l with rfl | ⟨l', a, rfl⟩
  · simp [strip_one_trailing_newline, bytesEndsWith, List.isSuffixOf]
  · simp only [List.concat_eq_append]
    rw [List.getLast?_concat]
    by_cases ha : a = 13
    · subst ha
      have hb1 : (l' ++ [13]) ++ [10] = l' ++ [13, 10] := by simp
      rw [hb1]
      have hcr2 : bytesEndsWith (l' ++ [13, 10]) [13, 10] = true := by
        rw [bytesEndsWith_iff]
        exact ⟨l', rfl⟩
      simp only [strip_one_trailing_newline, hcr2, if_true]
      have hl2 : (l' ++ [13, 10]).length - 2 = l'.length := by simp
      refine ⟨?_, ?_⟩
      · rw [hl2, take_append_zero_pair]
        simp
      · rw [hl2, take_append_zero_pair]
        simp
    · have hne : ¬ ((some a : Option Nat) = some 13) := by simp [ha]
      rw [if_neg hne]
      have hb1 : (l' ++ [a]) ++ [10] = l' ++ [a, 10] := by simp
      rw [hb1]
      have hcr2 : bytesEndsWith (l' ++ [a, 10]) [13, 10] = false := by
        rcases hq : bytesEndsWith (l' ++ [a, 10]) [13, 10] with _ | _
        · rfl
        · have := (bytesEndsWith_iff _ _).1 hq
          rw [suffix_pair_iff] at this
          exact absurd this.1.symm ha
      have hlf2 : bytesEndsWith (l' ++ [a, 10]) [10] = true := by
        rw [bytesEndsWith_iff]
        exact ⟨l' ++ [a], by simp⟩
      simp only [strip_one_trailing_newline, hcr2, hlf2, if_true,
        Bool.false_eq_true, if_false]
      have hl2 : (l' ++ [a, 10]).length - 1 = l'.length + 1 := by simp
      constructor
      · rw [hl2, take_append_pair]
      · rw [hl2, take_append_pair]
        simp

/-!
Model of `src/main.rs`.

The git repository and the working tree are modelled as explicit read-only
state (`GitEnv`) plus a mutable file-system map (`FsState`).  Each mode of
the tool becomes a function taking the environment and file system and
returning the final file system, the list of side effects performed
(prints, file writes, staging, amend, filter-branch invocation) and an
optional error message (`none` = exit success).  External mutating git
commands that the source only checks for success (`git add`,
`git commit --amend`, `git filter-branch`) are modelled as succeeding
effects; read-only git queries are answered by `GitEnv`.
-/

/-- Worktree file system: path → file bytes (`none`: `fs::read` fails). -/
def FsState := String → Option (List Nat)

/-- Observable side effects of one invocation of the tool. -/
inductive Effect where
  /-- `println!` to stdout. -/
  | printLine (s : String)
  /-- `eprintln!` to stderr. -/
  | eprintLine (s : String)
  /-- `fs::write(path, content)`. -/
  | writeFile (path : String) (content : List Nat)
  /-- `git add -- <path>`. -/
  | gitAdd (path : String)
  /-- `git add -A`. -/
  | gitAddAll
  /-- `git commit --amend --no-edit --allow-empty`. -/
  | gitCommitAmend
  /-- `git filter-branch -f --prune-empty --tree-filter <cmd> <base>..HEAD`
  where `<cmd>` re-invokes the tool with `--in-filter-branch --n 1` and the
  forwarded author filters. -/
  | filterBranch (base : String) (authorName authorEmail : Option String)
  deriving DecidableEq

/-- Parsed command-line arguments (struct `Args` in `main.rs`). -/
structure Args where
  n : Nat
  dry_run : Bool
  in_rebase : Bool
  in_filter_branch : Bool
  author_name : Option String
  author_email : Option String

/-- Read-only snapshot of the git repository state consulted by the tool.
Commits and object ids are strings, as in the `String`-typed Rust code. -/
structure GitEnv where
  /-- `git rev-parse --is-inside-work-tree` prints `true`. -/
  insideWorktree : Bool
  /-- the id of `HEAD` (first token of `git rev-list --parents -n 1 HEAD`). -/
  head : String
  /-- parent ids of a commit: the tokens after the commit itself in
  `git rev-list --parents -n 1 <commit>`. -/
  parents : String → List String
  /-- trimmed `%an` (author name) of a commit, from `git show -s`. -/
  authorName : String → String
  /-- trimmed `%ae` (author email) of a commit, from `git show -s`. -/
  authorEmail : String → String
  /-- the (status, path) lines of
  `git diff-tree --no-commit-id --name-status -r <commit>`. -/
  diffTree : String → List (String × String)
  /-- `git rev-parse <spec>` for an object spec such as `HEAD:<path>`,
  `<commit>:<path>` or `:<path>`; `none` models command failure. -/
  revParse : String → Option String
  /-- `git cat-file -s <oid>`: declared object size in bytes. -/
  blobSize : String → Nat
  /-- `git cat-file -p <oid>`: object bytes. -/
  blobContent : String → List Nat
  /-- paths from `git diff --name-only -z` (modified, unstaged). -/
  unstagedPaths : List String
  /-- paths from `git diff --cached --name-only -z` (staged). -/
  stagedPaths : List String
  /-- `git status --porcelain` output is empty. -/
  worktreeClean : Bool
  /-- a `rebase-apply` or `rebase-merge` git-path exists. -/
  rebaseInProgress : Bool
  /-- the `GIT_COMMIT` environment variable, when set. -/
  gitCommitEnv : Option String

/-- `rev_parse_oid` from `main.rs`: `git rev-parse <spec>`, trimmed. -/
def rev_parse_oid (env : GitEnv) (spec : String) : Except String String :=
  match env.revParse spec with
  | some oid => .ok oid
  | none => .error ("git rev-parse failed: " ++ spec)

/-- `blob_bytes_limited` from `main.rs`: reads an object's bytes, failing
when its declared size exceeds 10,000,000 bytes. -/
def blob_bytes_limited (env : GitEnv) (oid : String) : Except String (List Nat) :=
  if env.blobSize oid > 10000000 then
    .error ("blob too large, skipping: " ++ oid)
  else
    .ok (env.blobContent oid)

/-- `changed_paths_in_commit` from `main.rs`: keeps only the paths whose
diff-tree status is exactly `M`. -/
def changed_paths_in_commit (env : GitEnv) (commit : String) : List String :=
  ((env.diffTree commit).filter (fun e => e.1 = "M")).map (fun e => e.2)

/-- Case-insensitive fold used by the author filter
(Rust `str::to_lowercase`). -/
def strToLower (s : String) : String :=
  String.mk (s.data.map Char.toLower)

/-- Rust `str::contains`: `needle` occurs as a contiguous substring. -/
def charListContains (hay needle : List Char) : Bool :=
  match hay with
  | [] => needle.isEmpty
  | _ :: t => List.isPrefixOf needle hay || charListContains t needle

/-- `commit_matches_author_filter` from `main.rs`. -/
def commit_matches_author_filter (env : GitEnv) (args : Args)
    (commit : String) : Bool :=
  if args.author_name = none ∧ args.author_email = none then true
  else
    let name := env.authorName commit
    let email := env.authorEmail commit
    (match args.author_name with
     | some needle =>
       charListContains (strToLower name).data (strToLower needle).data
     | none => true) &&
    (match args.author_email with
     | some needle =>
       charListContains (strToLower email).data (strToLower needle).data
     | none => true)

/-- `first_parent_of_commit` from `main.rs`: the unique parent; errors on
a root commit and on a merge commit. -/
def first_parent_of_commit (env : GitEnv) (commit : String) :
    Except String String :=
  match env.parents commit with
  | [] => .error (commit ++ " has no parent")
  | [p] => .ok p
  | _ :: _ :: _ => .error (commit ++ " is a merge commit; not supported")

/-- `head_and_first_parent` from `main.rs`: note that it takes the second
whitespace token, i.e. the first parent, without rejecting merges. -/
def head_and_first_parent (env : GitEnv) : Except String (String × String) :=
  match env.parents env.head with
  | [] => .error "HEAD has no parent (cannot run --n 1 on an initial commit)"
  | p :: _ => .ok (env.head, p)

/-- `strip_worktree_file` from `main.rs`: reads the file, strips one
trailing terminator, and writes it back only when something changed. -/
def strip_worktree_file (fs : FsState) (path : String) :
    Except String (FsState × List Effect) :=
  match fs path with
  | none => .error ("failed to read file " ++ path)
  | some bytes =>
    let res := strip_one_trailing_newline bytes
    if res.2 = false then .ok (fs, [])
    else .ok (fun p => if p = path then some res.1 else fs p,
              [Effect.writeFile path res.1])

/-- `FixTarget` from `main.rs`. -/
inductive FixTarget where
  | worktree
  | index
  deriving DecidableEq

/-- `fix_path_against_head` from `main.rs` (the n=0 per-path step).
Returns the new file system, the effects, and the `bool` the Rust
function returns.  Note that the `?` on both `rev_parse_oid` and
`blob_bytes_limited` for the HEAD (and index) versions propagates those
errors, while a worktree `fs::read` failure is a silent skip. -/
def fix_path_apply (fs : FsState) (path : String) (target : FixTarget)
    (dry_run : Bool) (old_bytes new_bytes : List Nat) :
    Except String (FsState × List Effect × Bool) :=
  if added_eof_newline old_bytes new_bytes = false then
    .ok (fs, [], false)
  else if dry_run then
    let label := match target with
      | FixTarget.worktree => "worktree"
      | FixTarget.index => "index"
    .ok (fs, [Effect.printLine ("n=0 match (" ++ label ++ "): " ++ path)],
         true)
  else
    match target with
    | .worktree =>
      match strip_worktree_file fs path with
      | .error e => .error e
      | .ok r => .ok (r.1, r.2, true)
    | .index =>
      match strip_worktree_file fs path with
      | .error e => .error e
      | .ok r => .ok (r.1, r.2 ++ [Effect.gitAdd path], true)

/-- `fix_path_against_head` proper: resolves the HEAD version (errors
propagate), obtains the new version (a worktree `fs::read` failure is a
silent skip; index lookups propagate errors) and hands over to
`fix_path_apply`. -/
def fix_path_against_head (env : GitEnv) (fs : FsState) (path : String)
    (target : FixTarget) (dry_run : Bool) :
    Except String (FsState × List Effect × Bool) :=
  match rev_parse_oid env ("HEAD:" ++ path) with
  | .error e => .error e
  | .ok head_oid =>
    match blob_bytes_limited env head_oid with
    | .error e => .error e
    | .ok old_bytes =>
      match target with
      | .worktree =>
        match fs path with
        | none => .ok (fs, [], false)
        | some new_bytes =>
          fix_path_apply fs path target dry_run old_bytes new_bytes
      | .index =>
        match rev_parse_oid env (":" ++ path) with
        | .error e => .error e
        | .ok idx_oid =>
          match blob_bytes_limited env idx_oid with
          | .error e => .error e
          | .ok new_bytes =>
            fix_path_apply fs path target dry_run old_bytes new_bytes

/-- Lexicographic order on character lists, the path order underlying
`BTreeSet<PathBuf>` iteration. -/
def charListLt : List Char → List Char → Bool
  | [], [] => false
  | [], _ :: _ => true
  | _ :: _, [] => false
  | x :: xs, y :: ys =>
    x.toNat < y.toNat || (x.toNat = y.toNat && charListLt xs ys)

/-- Ordered insertion into a sorted duplicate-free list of strings, the
building block for the `BTreeSet` model. -/
def sortedInsert (x : String) : List String → List String
  | [] => [x]
  | y :: ys =>
    if x = y then y :: ys
    else if charListLt x.data y.data then x :: y :: ys
    else y :: sortedInsert x ys

/-- `BTreeSet<PathBuf>::from_iter`: sorted, duplicate-free. -/
def btreeSet (l : List String) : List String :=
  l.foldl (fun acc x => sortedInsert x acc) []

/-- The per-path loop bodies of `run_n0`: runs `fix_path_against_head` on
each path in order, threading the file system, accumulating effects and
the `handled_any` flag, and stopping at the first propagated error. -/
def n0FixLoop (env : GitEnv) (target : FixTarget) (dry : Bool) :
    FsState → List String → FsState × List Effect × Bool × Option String
  | fs, [] => (fs, [], false, none)
  | fs, p :: rest =>
    match fix_path_against_head env fs p target dry with
    | .error e => (fs, [], false, some e)
    | .ok (fs1, effs1, handled) =>
      let r := n0FixLoop env target dry fs1 rest
      (r.1, effs1 ++ r.2.1, handled || r.2.2.1, r.2.2.2)

/-- `run_n0` from `main.rs`: the working-tree/index scan mode. -/
def run_n0 (env : GitEnv) (fs : FsState) (args : Args) :
    FsState × List Effect × Option String :=
  let unstaged_set := btreeSet env.unstagedPaths
  let staged_set := btreeSet env.stagedPaths
  let partialPaths := unstaged_set.filter (fun p => staged_set.contains p)
  let partialEffs := partialPaths.map
    (fun p => Effect.eprintLine ("skipping partially-staged file: " ++ p))
  let r1 := n0FixLoop env .worktree args.dry_run fs
    (unstaged_set.filter (fun p => !staged_set.contains p))
  match r1.2.2.2 with
  | some e => (r1.1, partialEffs ++ r1.2.1, some e)
  | none =>
    let r2 := n0FixLoop env .index args.dry_run r1.1
      (staged_set.filter (fun p => !unstaged_set.contains p))
    (r2.1, partialEffs ++ r1.2.1 ++ r2.2.1, r2.2.2.2)

/-- The read-only scan loop of `run_n1`: collects `paths_to_fix`,
silently skipping any path whose object lookups or size-limited reads
fail. -/
def n1ScanLoop (env : GitEnv) (head parent : String) :
    List String → List String
  | [] => []
  | path :: rest =>
    match rev_parse_oid env (parent ++ ":" ++ path) with
    | .error _ => n1ScanLoop env head parent rest
    | .ok old_oid =>
      match rev_parse_oid env (head ++ ":" ++ path) with
      | .error _ => n1ScanLoop env head parent rest
      | .ok new_oid =>
        match blob_bytes_limited env old_oid with
        | .error _ => n1ScanLoop env head parent rest
        | .ok old_bytes =>
          match blob_bytes_limited env new_oid with
          | .error _ => n1ScanLoop env head parent rest
          | .ok new_bytes =>
            if added_eof_newline old_bytes new_bytes then
              path :: n1ScanLoop env head parent rest
            else
              n1ScanLoop env head parent rest

/-- The mutating loop of `run_n1` over `paths_to_fix`: dry runs print,
live runs strip the worktree file and stage it. -/
def n1FixLoop (dry : Bool) :
    FsState → List String → FsState × List Effect × Option String
  | fs, [] => (fs, [], none)
  | fs, path :: rest =>
    if dry then
      let r := n1FixLoop dry fs rest
      (r.1, Effect.printLine ("n=1 match: " ++ path) :: r.2.1, r.2.2)
    else
      match strip_worktree_file fs path with
      | .error e => (fs, [], some e)
      | .ok (fs1, effs1) =>
        let r := n1FixLoop dry fs1 rest
        (r.1, effs1 ++ [Effect.gitAdd path] ++ r.2.1, r.2.2)

/-- The body of `run_n1` after its precondition checks. -/
def run_n1_main (env : GitEnv) (fs : FsState) (args : Args) :
    FsState × List Effect × Option String :=
  if commit_matches_author_filter env args "HEAD" = false then (fs, [], none)
  else
    match head_and_first_parent env with
    | .error e => (fs, [], some e)
    | .ok hp =>
      let changed := changed_paths_in_commit env hp.1
      let paths_to_fix := n1ScanLoop env hp.1 hp.2 changed
      if paths_to_fix = [] then (fs, [], none)
      else
        let r := n1FixLoop args.dry_run fs paths_to_fix
        match r.2.2 with
        | some e => (r.1, r.2.1, some e)
        | none =>
          if args.dry_run then (r.1, r.2.1, none)
          else (r.1, r.2.1 ++ [Effect.gitCommitAmend], none)

/-- `run_n1` from `main.rs`: the most-recent-commit amend mode. -/
def run_n1 (env : GitEnv) (fs : FsState) (args : Args) :
    FsState × List Effect × Option String :=
  if args.in_rebase = false then
    if env.worktreeClean = false then
      (fs, [], some "working tree is not clean; refusing to amend commits")
    else run_n1_main env fs args
  else if args.n ≠ 1 then
    (fs, [], some "--in-rebase can only be used with --n 1")
  else run_n1_main env fs args

/-- `filter_branch_commit` from `main.rs`: the `GIT_COMMIT` environment
variable, defaulting to `HEAD`. -/
def filter_branch_commit (env : GitEnv) : String :=
  match env.gitCommitEnv with
  | some c => c
  | none => "HEAD"

/-- The per-path loop of `run_filter_branch_step`: object lookups, reads
and unreadable files are silent skips; a qualifying path is stripped on
disk (live runs only) and flips `changed_any`. -/
def fbLoop (env : GitEnv) (parent : String) (dry : Bool) :
    FsState → List String → FsState × List Effect × Bool × Option String
  | fs, [] => (fs, [], false, none)
  | fs, path :: rest =>
    match rev_parse_oid env (parent ++ ":" ++ path) with
    | .error _ => fbLoop env parent dry fs rest
    | .ok old_oid =>
      match blob_bytes_limited env old_oid with
      | .error _ => fbLoop env parent dry fs rest
      | .ok old_bytes =>
        match fs path with
        | none => fbLoop env parent dry fs rest
        | some new_bytes =>
          if added_eof_newline old_bytes new_bytes = true ∧ dry = false then
            match strip_worktree_file fs path with
            | .error e => (fs, [], false, some e)
            | .ok (fs1, effs1) =>
              let r := fbLoop env parent dry fs1 rest
              (r.1, effs1 ++ r.2.1, true, r.2.2.2)
          else
            fbLoop env parent dry fs rest

/-- `run_filter_branch_step` from `main.rs`: the internal
`--in-filter-branch` mode run once per commit by `git filter-branch`. -/
def run_filter_branch_step (env : GitEnv) (fs : FsState) (args : Args) :
    FsState × List Effect × Option String :=
  if args.n ≠ 1 then
    (fs, [], some "--in-filter-branch can only be used with --n 1")
  else
    let commit := filter_branch_commit env
    if commit_matches_author_filter env args commit = false then (fs, [], none)
    else
      match first_parent_of_commit env commit with
      | .error e => (fs, [], some e)
      | .ok parent =>
        let changed := changed_paths_in_commit env commit
        let r := fbLoop env parent args.dry_run fs changed
        match r.2.2.2 with
        | some e => (r.1, r.2.1, some e)
        | none =>
          if r.2.2.1 then (r.1, r.2.1 ++ [Effect.gitAddAll], none)
          else (r.1, r.2.1, none)

/-- The read-only scan loop of `commit_has_added_eof_newline`: any object
lookup or size-limited read failure silently skips the path; the loop
short-circuits at the first qualifying path. -/
def commitScanLoop (env : GitEnv) (parent commit : String) :
    List String → Bool
  | [] => false
  | path :: rest =>
    match rev_parse_oid env (parent ++ ":" ++ path) with
    | .error _ => commitScanLoop env parent commit rest
    | .ok old_oid =>
      match rev_parse_oid env (commit ++ ":" ++ path) with
      | .error _ => commitScanLoop env parent commit rest
      | .ok new_oid =>
        match blob_bytes_limited env old_oid with
        | .error _ => commitScanLoop env parent commit rest
        | .ok old_bytes =>
          match blob_bytes_limited env new_oid with
          | .error _ => commitScanLoop env parent commit rest
          | .ok new_bytes =>
            if added_eof_newline old_bytes new_bytes then true
            else commitScanLoop env parent commit rest

/-- `commit_has_added_eof_newline` from `main.rs`.  The only propagated
error is the one from `first_parent_of_commit` (root or merge commit). -/
def commit_has_added_eof_newline (env : GitEnv) (commit : String) :
    Except String Bool :=
  match first_parent_of_commit env commit with
  | .error e => .error e
  | .ok parent =>
    .ok (commitScanLoop env parent commit (changed_paths_in_commit env commit))

/-- The first-parent ancestry walk behind
`git rev-list --first-parent -n <n> HEAD`: newest first, following each
commit's first parent, stopping at a root or after `n` commits. -/
def firstParentChain (env : GitEnv) : Nat → String → List String
  | 0, _ => []
  | Nat.succ k, c =>
    c :: (match env.parents c with
          | [] => []
          | p :: _ => firstParentChain env k p)

/-- `recent_first_parent_commits` from `main.rs`: the rev-list output
reversed, so oldest first. -/
def recent_first_parent_commits (env : GitEnv) (n : Nat) : List String :=
  (firstParentChain env n env.head).reverse

/-- The `needs_fix` collection loop of `run_n_gt1`: author-filtered
commits are skipped entirely; for the rest, `commit_has_added_eof_newline`
decides membership and its error (root or merge commit) aborts the whole
operation. -/
def collectNeedsFix (env : GitEnv) (args : Args) :
    List String → Except String (List String)
  | [] => .ok []
  | c :: rest =>
    if commit_matches_author_filter env args c = false then
      collectNeedsFix env args rest
    else
      match commit_has_added_eof_newline env c with
      | .error e => .error e
      | .ok b =>
        match collectNeedsFix env args rest with
        | .error e => .error e
        | .ok tail => .ok (if b then c :: tail else tail)

/-- `run_n_gt1` from `main.rs`: the range mode. -/
def run_n_gt1 (env : GitEnv) (fs : FsState) (args : Args) :
    FsState × List Effect × Option String :=
  if args.n = 0 then (fs, [], some "internal error: run_n_gt1 received --n 0")
  else if args.n = 1 then run_n1 env fs args
  else if env.worktreeClean = false then
    (fs, [], some "working tree is not clean; refusing to amend commits")
  else if env.rebaseInProgress = true then
    (fs, [], some "detected an ongoing rebase; refusing to start another rebase")
  else
    let commits := recent_first_parent_commits env args.n
    match collectNeedsFix env args commits with
    | .error e => (fs, [], some e)
    | .ok [] => (fs, [], none)
    | .ok (earliest :: rest) =>
      match first_parent_of_commit env earliest with
      | .error e => (fs, [], some e)
      | .ok base =>
        if args.dry_run then
          (fs, Effect.printLine ("will run filter-branch starting at base: " ++ base)
               :: (earliest :: rest).map
                    (fun c => Effect.printLine ("n>1 match commit: " ++ c)),
           none)
        else
          (fs, [Effect.filterBranch base args.author_name args.author_email],
           none)

/-- `run` from `main.rs` after argument parsing: the worktree check
followed by the mode dispatch on `(n, in_rebase, in_filter_branch)`. -/
def run (env : GitEnv) (fs : FsState) (args : Args) :
    FsState × List Effect × Option String :=
  if env.insideWorktree = false then (fs, [], some "not inside a git worktree")
  else if args.in_filter_branch = true then run_filter_branch_step env fs args
  else if args.n = 0 ∧ args.in_rebase = false then run_n0 env fs args
  else if args.n = 0 ∧ args.in_rebase = true then
    (fs, [], some "--in-rebase cannot be used with --n 0")
  else if args.n = 1 then run_n1 env fs args
  else if args.in_rebase = true then
    (fs, [], some "--in-rebase can only be used with --n 1")
  else run_n_gt1 env fs args

/-! Supporting lemmas about the range-mode scan. -/

/-- The predicate deciding whether `run_n_gt1` marks a commit as needing
fix: it passes the author filter and its change set introduces a trailing
terminator on some path. -/
def needsFixB (env : GitEnv) (args : Args) (c : String) : Bool :=
  commit_matches_author_filter env args c &&
    (match commit_has_added_eof_newline env c with
     | .ok true => true
     | _ => false)

/-- When the `needs_fix` collection loop succeeds, its result is exactly
the order-preserving filter of the scanned commits by `needsFixB`. -/
theorem collectNeedsFix_eq_filter (env : GitEnv) (args : Args) :
    ∀ (l : List String) (nf : List String),
      collectNeedsFix env args l = .ok nf →
      nf = l.filter (needsFixB env args) := by
  intro l
  induction l with
  | nil =>
    intro nf h
    simp [collectNeedsFix] at h
    simp [h]
  | cons c rest ih =>
    intro nf h
    by_cases hf : commit_matches_author_filter env args c = false
    · rw [collectNeedsFix, if_pos hf] at h
      have := ih nf h
      simp [List.filter, needsFixB, hf, this]
    · rw [collectNeedsFix, if_neg hf] at h
      rcases hadd : commit_has_added_eof_newline env c with e | b
      · rw [hadd] at h
        exact absurd h (by simp)
      · rw [hadd] at h
        rcases hrest : collectNeedsFix env args rest with e | tail
        · rw [hrest] at h
          exact absurd h (by simp)
        · rw [hrest] at h
          have htail := ih tail hrest
          have hft : commit_matches_author_filter env args c = true := by
            rcases hq : commit_matches_author_filter env args c with _ | _
            · exact absurd hq hf
            · rfl
          rcases b with _ | _
          · simp at h
            simp [List.filter, needsFixB, hft, hadd, ← h, htail]
          · simp at h
            simp [List.filter, needsFixB, hft, hadd, ← h, htail]

/-- If some commit in the scanned list passes the author filter and is a
merge commit (more than one parent), the `needs_fix` collection loop
fails with an error. -/
theorem collectNeedsFix_merge_error (env : GitEnv) (args : Args)
    (c : String) (hfilter : commit_matches_author_filter env args c = true)
    (hmerge : 1 < (env.parents c).length) :
    ∀ l : List String, c ∈ l → ∃ e, collectNeedsFix env args l = .error e := by
  intro l
  induction l with
  | nil => intro h; exact absurd h (by simp)
  | cons x rest ih =>
    intro hmem
    have hcerr : ∃ e, commit_has_added_eof_newline env c = .error e := by
      rcases hp : env.parents c with _ | ⟨p, ps⟩
      · rw [hp] at hmerge
        simp at hmerge
      · rcases ps with _ | ⟨q, qs⟩
        · rw [hp] at hmerge
          simp at hmerge
        · exact ⟨c ++ " is a merge commit; not supported",
            by simp [commit_has_added_eof_newline, first_parent_of_commit, hp]⟩
    rcases List.mem_cons.1 hmem with rfl | hrest
    · rcases hcerr with ⟨e, he⟩
      refine ⟨e, ?_⟩
      rw [collectNeedsFix, if_neg (by simp [hfilter]), he]
    · rcases ih hrest with ⟨e, he⟩
      by_cases hf : commit_matches_author_filter env args x = false
      · exact ⟨e, by rw [collectNeedsFix, if_pos hf]; exact he⟩
      · rcases hadd : commit_has_added_eof_newline env x with e2 | b
        · exact ⟨e2, by rw [collectNeedsFix, if_neg hf, hadd]⟩
        · exact ⟨e, by rw [collectNeedsFix, if_neg hf, hadd, he]⟩

/-- Claim C1: in range mode (n>1), the commits are scanned oldest-first
along first-parent lineage (the reversed rev-list output); when the scan
marks at least one commit as needing fix, the rewrite base is the first
parent of the oldest marked commit — every marked commit lies at or after
it in the oldest-first list, i.e. strictly inside the rewritten
`base..HEAD` range — and that base is reported in a dry run or handed to
the `git filter-branch` invocation in a live run. -/
theorem run_n_gt1_base_oldest_offender (env : GitEnv) (fs : FsState)
    (args : Args) (h2 : 2 ≤ args.n)
    (earliest base : String) (nf : List String)
    (hclean : env.worktreeClean = true)
    (hreb : env.rebaseInProgress = false)
    (hcollect : collectNeedsFix env args
        (recent_first_parent_commits env args.n) = .ok (earliest :: nf))
    (hbase : first_parent_of_commit env earliest = .ok base) :
    recent_first_parent_commits env args.n =
      (firstParentChain env args.n env.head).reverse ∧
    (∃ older newer,
      recent_first_parent_commits env args.n = older ++ earliest :: newer ∧
      (∀ c ∈ older, needsFixB env args c = false) ∧
      (∀ c ∈ recent_first_parent_commits env args.n,
        needsFixB env args c = true → c ∈ earliest :: newer)) ∧
    (if args.dry_run then
      run_n_gt1 env fs args =
        (fs,
         Effect.printLine ("will run filter-branch starting at base: " ++ base)
           :: (earliest :: nf).map
                (fun c => Effect.printLine ("n>1 match commit: " ++ c)),
         none)
     else
      run_n_gt1 env fs args =
        (fs, [Effect.filterBranch base args.author_name args.author_email],
         none)) := by
  have hfilter := collectNeedsFix_eq_filter env args _ _ hcollect
  refine ⟨rfl, ?_, ?_⟩
  · have hsplit := (List.filter_eq_cons_iff).1 hfilter.symm
    rcases hsplit with ⟨l1, l2, hl, hnot, _hpred, _hrest⟩
    refine ⟨l1, l2, hl, ?_, ?_⟩
    · intro c hc
      rcases hq : needsFixB env args c with _ | _
      · rfl
      · exact absurd hq (by simpa using hnot c hc)
    · intro c hc hpredc
      rw [hl] at hc
      rcases List.mem_append.1 hc with h1 | h2
      · exact absurd hpredc (by simpa using hnot c h1)
      · exact h2
  · have hn0 : ¬ args.n = 0 := by omega
    have hn1 : ¬ args.n = 1 := by omega
    rcases hdry : args.dry_run with _ | _
    · simp only [Bool.false_eq_true, if_false]
      rw [run_n_gt1, if_neg hn0, if_neg hn1, if_neg (by rw [hclean]; simp),
        if_neg (by rw [hreb]; simp)]
      simp only [hcollect, hbase, hdry, Bool.false_eq_true, if_false]
    · simp only [if_true]
      rw [run_n_gt1, if_neg hn0, if_neg hn1, if_neg (by rw [hclean]; simp),
        if_neg (by rw [hreb]; simp)]
      simp only [hcollect, hbase, hdry, if_true]

/-- A concrete four-commit repository: `a` ← `b` ← `c` ← `d` = HEAD along
first parents.  Commits `b` and `d` modify one path each and introduce a
trailing newline; `c` changes nothing. -/
def rangeEnv : GitEnv where
  insideWorktree := true
  head := "d"
  parents := fun c =>
    if c = "d" then ["c"]
    else if c = "c" then ["b"]
    else if c = "b" then ["a"]
    else []
  authorName := fun _ => ""
  authorEmail := fun _ => ""
  diffTree := fun c =>
    if c = "b" then [("M", "f")]
    else if c = "d" then [("M", "g")]
    else []
  revParse := fun spec =>
    if spec = "a:f" then some "ob0"
    else if spec = "b:f" then some "ob1"
    else if spec = "c:g" then some "od0"
    else if spec = "d:g" then some "od1"
    else none
  blobSize := fun _ => 0
  blobContent := fun oid =>
    if oid = "ob0" then [97]
    else if oid = "ob1" then [97, 10]
    else if oid = "od0" then [98]
    else if oid = "od1" then [98, 10]
    else []
  unstagedPaths := []
  stagedPaths := []
  worktreeClean := true
  rebaseInProgress := false
  gitCommitEnv := none

/-- `--n 3 --dry-run` invocation. -/
def rangeArgs : Args :=
  { n := 3, dry_run := true, in_rebase := false, in_filter_branch := false,
    author_name := none, author_email := none }

/-- An empty worktree file-system map. -/
def emptyFs : FsState := fun _ => none

/-- Witness for C1: on the concrete repository the commits are scanned as
`[b, c, d]` (oldest first), `b` and `d` need fixing, and the dry run
reports base `a` (the first parent of the oldest offender `b`) and both
offending commits. -/
theorem run_n_gt1_base_oldest_offender_witness :
    run_n_gt1 rangeEnv emptyFs rangeArgs =
      (emptyFs,
       Effect.printLine ("will run filter-branch starting at base: " ++ "a")
         :: (["b", "d"].map
              (fun c => Effect.printLine ("n>1 match commit: " ++ c))),
       none) := by
  have h := (run_n_gt1_base_oldest_offender rangeEnv emptyFs rangeArgs
    (by decide) "b" "a" ["d"] rfl rfl rfl rfl).2.2
  simpa [rangeArgs] using h


/-! Supporting lemmas about dry runs. -/

/-- Effects that only report (stdout/stderr prints) and mutate nothing. -/
def isReportEffect : Effect → Bool
  | .printLine _ => true
  | .eprintLine _ => true
  | _ => false

theorem fix_path_apply_dry (f : FsState) (path : String) (target : FixTarget)
    (old_bytes new_bytes : List Nat) (fs1 : FsState) (effs : List Effect)
    (handled : Bool)
    (ha : fix_path_apply f path target true old_bytes new_bytes =
      .ok (fs1, effs, handled)) :
    fs1 = f ∧ ∀ e ∈ effs, isReportEffect e = true := by
  unfold fix_path_apply at ha
  split at ha
  · simp at ha
    obtain ⟨hf, he, _⟩ := ha
    subst he
    exact ⟨hf.symm, by simp⟩
  · rw [if_pos rfl] at ha
    simp at ha
    obtain ⟨hf, he, _⟩ := ha
    subst he
    exact ⟨hf.symm, by simp [isReportEffect]⟩

theorem fix_path_against_head_dry (env : GitEnv) (fs : FsState)
    (path : String) (target : FixTarget) (fs1 : FsState) (effs : List Effect)
    (handled : Bool)
    (h : fix_path_against_head env fs path target true =
      .ok (fs1, effs, handled)) :
    fs1 = fs ∧ ∀ e ∈ effs, isReportEffect e = true := by
  unfold fix_path_against_head at h
  split at h
  · exact absurd h (by simp)
  · split at h
    · exact absurd h (by simp)
    · split at h
      · split at h
        · simp at h
          obtain ⟨hf, he, _⟩ := h
          subst he
          exact ⟨hf.symm, by simp⟩
        · exact fix_path_apply_dry fs path _ _ _ fs1 effs handled h
      · split at h
        · exact absurd h (by simp)
        · split at h
          · exact absurd h (by simp)
          · exact fix_path_apply_dry fs path _ _ _ fs1 effs handled h

theorem n0FixLoop_dry (env : GitEnv) (target : FixTarget) :
    ∀ (l : List String) (fs : FsState),
      (n0FixLoop env target true fs l).1 = fs ∧
      ∀ e ∈ (n0FixLoop env target true fs l).2.1, isReportEffect e = true := by
  intro l
  induction l with
  | nil => intro fs; simp [n0FixLoop]
  | cons p rest ih =>
    intro fs
    rw [n0FixLoop]
    rcases h : fix_path_against_head env fs p target true with e | r
    · simp
    · rcases r with ⟨fsA, effsA, handled⟩
      have h1 := fix_path_against_head_dry env fs p target fsA effsA handled h
      have h2 := ih fsA
      simp only []
      refine ⟨by rw [h2.1, h1.1], ?_⟩
      intro e he
      rcases List.mem_append.1 he with hm | hm
      · exact h1.2 e hm
      · exact h2.2 e hm

theorem run_n0_dry (env : GitEnv) (fs : FsState) (args : Args)
    (hdry : args.dry_run = true) :
    (run_n0 env fs args).1 = fs ∧
    ∀ e ∈ (run_n0 env fs args).2.1, isReportEffect e = true := by
  have h1 := n0FixLoop_dry env FixTarget.worktree
    ((btreeSet env.unstagedPaths).filter
      (fun p => !(btreeSet env.stagedPaths).contains p)) fs
  simp only [run_n0, hdry]
  split
  · constructor
    · exact h1.1
    · intro e2 he
      rcases List.mem_append.1 he with hm | hm
      · rcases List.mem_map.1 hm with ⟨p, _, rfl⟩
        rfl
      · exact h1.2 e2 hm
  · have h2 := n0FixLoop_dry env FixTarget.index
      ((btreeSet env.stagedPaths).filter
        (fun p => !(btreeSet env.unstagedPaths).contains p))
      ((n0FixLoop env FixTarget.worktree true fs
        ((btreeSet env.unstagedPaths).filter
          (fun p => !(btreeSet env.stagedPaths).contains p))).1)
    constructor
    · rw [h2.1, h1.1]
    · intro e2 he
      rcases List.mem_append.1 he with hm | hm
      · rcases List.mem_append.1 hm with hmm | hmm
        · rcases List.mem_map.1 hmm with ⟨p, _, rfl⟩
          rfl
        · exact h1.2 e2 hmm
      · exact h2.2 e2 hm


theorem n1FixLoop_dry :
    ∀ (l : List String) (fs : FsState),
      n1FixLoop true fs l =
        (fs, l.map (fun p => Effect.printLine ("n=1 match: " ++ p)), none) := by
  intro l
  induction l with
  | nil => intro fs; rfl
  | cons p rest ih =>
    intro fs
    rw [n1FixLoop, if_pos rfl, ih fs]
    rfl

theorem run_n1_main_dry (env : GitEnv) (fs : FsState) (args : Args)
    (hdry : args.dry_run = true) :
    (run_n1_main env fs args).1 = fs ∧
    ∀ e ∈ (run_n1_main env fs args).2.1, isReportEffect e = true := by
  simp only [run_n1_main]
  split
  · simp
  · split
    · simp
    · split
      · simp
      · rw [hdry, n1FixLoop_dry]
        simp only [if_pos rfl]
        refine ⟨by trivial, ?_⟩
        intro e he
        rcases List.mem_map.1 he with ⟨p, _, rfl⟩
        rfl

theorem run_n1_dry (env : GitEnv) (fs : FsState) (args : Args)
    (hdry : args.dry_run = true) :
    (run_n1 env fs args).1 = fs ∧
    ∀ e ∈ (run_n1 env fs args).2.1, isReportEffect e = true := by
  rw [run_n1]
  split
  · split
    · simp
    · exact run_n1_main_dry env fs args hdry
  · split
    · simp
    · exact run_n1_main_dry env fs args hdry

theorem fbLoop_dry (env : GitEnv) (parent : String) :
    ∀ (l : List String) (fs : FsState),
      fbLoop env parent true fs l = (fs, [], false, none) := by
  intro l
  induction l with
  | nil => intro fs; rfl
  | cons path rest ih =>
    intro fs
    rw [fbLoop]
    split
    · exact ih fs
    · split
      · exact ih fs
      · split
        · exact ih fs
        · split
          · rename_i hcond
            simp at hcond
          · exact ih fs

theorem run_filter_branch_step_dry (env : GitEnv) (fs : FsState) (args : Args)
    (hdry : args.dry_run = true) :
    (run_filter_branch_step env fs args).1 = fs ∧
    ∀ e ∈ (run_filter_branch_step env fs args).2.1, isReportEffect e = true := by
  simp only [run_filter_branch_step]
  split
  · simp
  · split
    · simp
    · split
      · simp
      · rw [hdry, fbLoop_dry]
        simp

theorem run_n_gt1_dry (env : GitEnv) (fs : FsState) (args : Args)
    (hdry : args.dry_run = true) :
    (run_n_gt1 env fs args).1 = fs ∧
    ∀ e ∈ (run_n_gt1 env fs args).2.1, isReportEffect e = true := by
  simp only [run_n_gt1]
  split
  · simp
  · split
    · exact run_n1_dry env fs args hdry
    · split
      · simp
      · split
        · simp
        · split
          · simp
          · simp
          · split
            · simp
            · refine ⟨by trivial, ?_⟩
              intro e he
              rcases List.mem_cons.1 he with rfl | hm
              · rfl
              · rcases List.mem_map.1 hm with ⟨c, _, rfl⟩
                rfl

/-- Claim C8: with `--dry-run`, no mode mutates anything — the final file
system equals the initial one and every emitted effect is a stdout/stderr
report (no file write, no staging, no amend, no filter-branch
invocation); range mode instead reports the computed base and the list of
offending commit ids. -/
theorem dry_run_no_mutation (env : GitEnv) (fs : FsState) (args : Args)
    (hdry : args.dry_run = true) :
    ((run env fs args).1 = fs ∧
     ∀ e ∈ (run env fs args).2.1, isReportEffect e = true) ∧
    (∀ (earliest base : String) (nf : List String),
      2 ≤ args.n → env.worktreeClean = true → env.rebaseInProgress = false →
      collectNeedsFix env args (recent_first_parent_commits env args.n) =
        .ok (earliest :: nf) →
      first_parent_of_commit env earliest = .ok base →
      run_n_gt1 env fs args =
        (fs,
         Effect.printLine ("will run filter-branch starting at base: " ++ base)
           :: (earliest :: nf).map
                (fun c => Effect.printLine ("n>1 match commit: " ++ c)),
         none)) := by
  constructor
  · rw [run]
    split
    · simp
    · split
      · exact run_filter_branch_step_dry env fs args hdry
      · split
        · exact run_n0_dry env fs args hdry
        · split
          · simp
          · split
            · exact run_n1_dry env fs args hdry
            · split
              · simp
              · exact run_n_gt1_dry env fs args hdry
  · intro earliest base nf h2 hclean hreb hcollect hbase
    have hn0 : ¬ args.n = 0 := by omega
    have hn1 : ¬ args.n = 1 := by omega
    rw [run_n_gt1, if_neg hn0, if_neg hn1, if_neg (by rw [hclean]; simp),
      if_neg (by rw [hreb]; simp)]
    simp only [hcollect, hbase, hdry, if_true]

/-- Witness for C8: on the concrete dry-run range invocation the file
system is untouched, only prints are emitted, and the base plus the two
offending commits are reported. -/
theorem dry_run_no_mutation_witness :
    ((run rangeEnv emptyFs rangeArgs).1 = emptyFs ∧
     ∀ e ∈ (run rangeEnv emptyFs rangeArgs).2.1, isReportEffect e = true) ∧
    run_n_gt1 rangeEnv emptyFs rangeArgs =
      (emptyFs,
       Effect.printLine ("will run filter-branch starting at base: " ++ "a")
         :: (["b", "d"].map
              (fun c => Effect.printLine ("n>1 match commit: " ++ c))),
       none) :=
  ⟨(dry_run_no_mutation rangeEnv emptyFs rangeArgs rfl).1,
   (dry_run_no_mutation rangeEnv emptyFs rangeArgs rfl).2 "b" "a" ["d"]
     (by decide) rfl rfl rfl rfl⟩

/-- A concrete repository whose range contains a merge commit: HEAD `c2`
(author Alice) has first parent `c1` (author Bob), and `c1` is a merge
commit with parents `p` and `q`.  No commit changes any path. -/
def mergeEnv : GitEnv where
  insideWorktree := true
  head := "c2"
  parents := fun c =>
    if c = "c2" then ["c1"]
    else if c = "c1" then ["p", "q"]
    else []
  authorName := fun c =>
    if c = "c2" then "Alice"
    else if c = "c1" then "Bob"
    else ""
  authorEmail := fun _ => ""
  diffTree := fun _ => []
  revParse := fun _ => none
  blobSize := fun _ => 0
  blobContent := fun _ => []
  unstagedPaths := []
  stagedPaths := []
  worktreeClean := true
  rebaseInProgress := false
  gitCommitEnv := none

/-- `--n 2 --author-name alice` (a filter matching only Alice). -/
def mergeFilterArgs : Args :=
  { n := 2, dry_run := false, in_rebase := false, in_filter_branch := false,
    author_name := some "alice", author_email := none }

/-- `--n 2` with no author filter. -/
def mergeNoFilterArgs : Args :=
  { n := 2, dry_run := false, in_rebase := false, in_filter_branch := false,
    author_name := none, author_email := none }

/-- Claim C2 (counterexample): with an author filter that excludes the
merge commit `c1`, range mode silently skips it — the collected range
contains a merge commit, yet the whole operation succeeds as a no-op
instead of failing. -/
theorem merge_skipped_counterexample :
    1 < (mergeEnv.parents "c1").length ∧
    "c1" ∈ recent_first_parent_commits mergeEnv mergeFilterArgs.n ∧
    commit_matches_author_filter mergeEnv mergeFilterArgs "c1" = false ∧
    run_n_gt1 mergeEnv emptyFs mergeFilterArgs = (emptyFs, [], none) := by
  refine ⟨by decide, by decide, by decide, ?_⟩
  rfl

/-- Claim C2 (amended): a merge commit among the N collected commits that
passes the author filter makes the whole range operation fail with an
error; a merge commit excluded by the author filter is skipped without
failing (see the counterexample). -/
theorem merge_commit_fails_range (env : GitEnv) (fs : FsState) (args : Args)
    (c : String) (h2 : 2 ≤ args.n)
    (hclean : env.worktreeClean = true)
    (hreb : env.rebaseInProgress = false)
    (hmem : c ∈ recent_first_parent_commits env args.n)
    (hfilter : commit_matches_author_filter env args c = true)
    (hmerge : 1 < (env.parents c).length) :
    ∃ e, (run_n_gt1 env fs args).2.2 = some e := by
  rcases collectNeedsFix_merge_error env args c hfilter hmerge _ hmem with ⟨e, he⟩
  have hn0 : ¬ args.n = 0 := by omega
  have hn1 : ¬ args.n = 1 := by omega
  refine ⟨e, ?_⟩
  rw [run_n_gt1, if_neg hn0, if_neg hn1, if_neg (by rw [hclean]; simp),
    if_neg (by rw [hreb]; simp)]
  simp only [he]

/-- Witness for the amended C2: without an author filter the same merge
commit makes the operation fail. -/
theorem merge_commit_fails_range_witness :
    ∃ e, (run_n_gt1 mergeEnv emptyFs mergeNoFilterArgs).2.2 = some e :=
  merge_commit_fails_range mergeEnv emptyFs mergeNoFilterArgs "c1"
    (by decide) rfl rfl (by decide) (by decide) (by decide)

/-- Extracts the error message of an `Except` result, if any. -/
def exceptErrMsg {α : Type} : Except String α → Option String
  | .error e => some e
  | .ok _ => none

/-- A concrete repository whose HEAD blob for path `f` declares
10,000,001 bytes, one over the size ceiling.  The worktree copy of `f`
is small. -/
def bigBlobEnv : GitEnv where
  insideWorktree := true
  head := "c"
  parents := fun c => if c = "c" then ["p"] else []
  authorName := fun _ => ""
  authorEmail := fun _ => ""
  diffTree := fun c => if c = "c" then [("M", "f")] else []
  revParse := fun spec =>
    if spec = "HEAD:f" then some "big"
    else if spec = "p:f" then some "big"
    else none
  blobSize := fun oid => if oid = "big" then 10000001 else 0
  blobContent := fun _ => []
  unstagedPaths := ["f"]
  stagedPaths := []
  worktreeClean := true
  rebaseInProgress := false
  gitCommitEnv := none

/-- Worktree with a small file `f`. -/
def bigBlobFs : FsState := fun p => if p = "f" then some [97, 10] else none

/-- `--n 0` invocation. -/
def n0Args : Args :=
  { n := 0, dry_run := false, in_rebase := false, in_filter_branch := false,
    author_name := none, author_email := none }

/-- Claim C3 (counterexample): in the working-tree/index scan mode the
too-large failure is not a per-path skip — `fix_path_against_head`
propagates it with `?`, so the whole `run_n0` operation aborts with the
too-large error. -/
theorem blob_too_large_fatal_counterexample :
    10000000 < bigBlobEnv.blobSize "big" ∧
    bigBlobEnv.revParse ("HEAD:" ++ "f") = some "big" ∧
    exceptErrMsg
        (fix_path_against_head bigBlobEnv bigBlobFs "f" .worktree false) =
      some ("blob too large, skipping: " ++ "big") ∧
    (run_n0 bigBlobEnv bigBlobFs n0Args).2.2 =
      some ("blob too large, skipping: " ++ "big") := by
  decide

/-- Claim C3 (amended): reading an object whose declared size exceeds
10,000,000 bytes fails with a too-large error; the commit-scanning call
sites (the n=1 scan, the range scan and the filter-branch step) treat the
failure as a per-path skip, but in the working-tree/index scan mode
(`fix_path_against_head`) the error propagates and aborts the whole
operation. -/
theorem blob_too_large_amended :
    (∀ (env : GitEnv) (oid : String), 10000000 < env.blobSize oid →
      blob_bytes_limited env oid =
        .error ("blob too large, skipping: " ++ oid)) ∧
    (∀ (env : GitEnv) (parent commit path : String) (rest : List String)
       (old_oid : String),
      env.revParse (parent ++ ":" ++ path) = some old_oid →
      10000000 < env.blobSize old_oid →
      commitScanLoop env parent commit (path :: rest) =
        commitScanLoop env parent commit rest) ∧
    (∀ (env : GitEnv) (head parent path : String) (rest : List String)
       (old_oid : String),
      env.revParse (parent ++ ":" ++ path) = some old_oid →
      10000000 < env.blobSize old_oid →
      n1ScanLoop env head parent (path :: rest) =
        n1ScanLoop env head parent rest) ∧
    (∀ (env : GitEnv) (parent : String) (dry : Bool) (fs : FsState)
       (path : String) (rest : List String) (old_oid : String),
      env.revParse (parent ++ ":" ++ path) = some old_oid →
      10000000 < env.blobSize old_oid →
      fbLoop env parent dry fs (path :: rest) = fbLoop env parent dry fs rest) ∧
    (∀ (env : GitEnv) (fs : FsState) (path : String) (target : FixTarget)
       (dry : Bool) (hoid : String),
      env.revParse ("HEAD:" ++ path) = some hoid →
      10000000 < env.blobSize hoid →
      fix_path_against_head env fs path target dry =
        .error ("blob too large, skipping: " ++ hoid)) := by
  have hblob : ∀ (env : GitEnv) (oid : String), 10000000 < env.blobSize oid →
      blob_bytes_limited env oid =
        .error ("blob too large, skipping: " ++ oid) := by
    intro env oid h
    rw [blob_bytes_limited, if_pos (by omega)]
  refine ⟨hblob, ?_, ?_, ?_, ?_⟩
  · intro env parent commit path rest old_oid hrev hsize
    have h1 : rev_parse_oid env (parent ++ ":" ++ path) = .ok old_oid := by
      rw [rev_parse_oid, hrev]
    rw [commitScanLoop]
    simp only [h1, hblob env old_oid hsize]
    rcases hq : rev_parse_oid env (commit ++ ":" ++ path) with e2 | new_oid <;> rfl
  · intro env head parent path rest old_oid hrev hsize
    have h1 : rev_parse_oid env (parent ++ ":" ++ path) = .ok old_oid := by
      rw [rev_parse_oid, hrev]
    rw [n1ScanLoop]
    simp only [h1, hblob env old_oid hsize]
    rcases hq : rev_parse_oid env (head ++ ":" ++ path) with e2 | new_oid <;> rfl
  · intro env parent dry fs path rest old_oid hrev hsize
    have h1 : rev_parse_oid env (parent ++ ":" ++ path) = .ok old_oid := by
      rw [rev_parse_oid, hrev]
    rw [fbLoop]
    simp only [h1, hblob env old_oid hsize]
  · intro env fs path target dry hoid hrev hsize
    have h1 : rev_parse_oid env ("HEAD:" ++ path) = .ok hoid := by
      rw [rev_parse_oid, hrev]
    rw [fix_path_against_head]
    simp only [h1, hblob env hoid hsize]

/-- Witness for the amended C3: the skip and the propagation at the
concrete over-limit repository. -/
theorem blob_too_large_amended_witness :
    blob_bytes_limited bigBlobEnv "big" =
      .error ("blob too large, skipping: " ++ "big") ∧
    commitScanLoop bigBlobEnv "p" "c" ["f"] =
      commitScanLoop bigBlobEnv "p" "c" [] ∧
    fix_path_against_head bigBlobEnv bigBlobFs "f" .worktree false =
      .error ("blob too large, skipping: " ++ "big") :=
  ⟨blob_too_large_amended.1 bigBlobEnv "big" (by decide),
   blob_too_large_amended.2.1 bigBlobEnv "p" "c" "f" [] "big"
     (by decide) (by decide),
   blob_too_large_amended.2.2.2.2 bigBlobEnv bigBlobFs "f" .worktree false
     "big" (by decide) (by decide)⟩

/-- The strip step reports a change exactly when the input ends in a
line-feed byte. -/
theorem strip_changed_eq (b : List Nat) :
    (strip_one_trailing_newline b).2 = ends_with_newline b := by
  by_cases h1 : bytesEndsWith b [13, 10] = true
  · have hlf : bytesEndsWith b [10] = true := by
      rw [bytesEndsWith_iff]
      exact crlf_suffix_imp_lf ((bytesEndsWith_iff b _).1 h1)
    simp [strip_one_trailing_newline, ends_with_newline, h1, hlf]
  · by_cases h2 : bytesEndsWith b [10] = true
    · simp [strip_one_trailing_newline, ends_with_newline, h1, h2]
    · simp [strip_one_trailing_newline, ends_with_newline, h1, h2]

/-- One strip application removes at most two bytes. -/
theorem strip_len_le (b : List Nat) :
    b.length ≤ (strip_one_trailing_newline b).1.length + 2 := by
  by_cases h1 : bytesEndsWith b [13, 10] = true
  · have := crlf_suffix_length ((bytesEndsWith_iff b _).1 h1)
    simp [strip_one_trailing_newline, h1]
    omega
  · by_cases h2 : bytesEndsWith b [10] = true
    · simp [strip_one_trailing_newline, h1, h2]
      omega
    · simp [strip_one_trailing_newline, h1, h2]

/-- `strip_worktree_file` on a file that ends in a line feed writes back
the stripped bytes. -/
theorem strip_worktree_file_writes (fs : FsState) (path : String)
    (new : List Nat) (hfs : fs path = some new)
    (hend : ends_with_newline new = true) :
    strip_worktree_file fs path =
      .ok (fun p => if p = path then
             some (strip_one_trailing_newline new).1 else fs p,
           [Effect.writeFile path (strip_one_trailing_newline new).1]) := by
  rw [strip_worktree_file, hfs]
  simp only [strip_changed_eq, hend]
  rw [if_neg (by simp)]

/-- `strip_worktree_file` on a file that does not end in a line feed is a
no-op. -/
theorem strip_worktree_file_noop (fs : FsState) (path : String)
    (bytes : List Nat) (hfs : fs path = some bytes)
    (hend : ends_with_newline bytes = false) :
    strip_worktree_file fs path = .ok (fs, []) := by
  rw [strip_worktree_file, hfs]
  simp only [strip_changed_eq, hend]
  simp

/-- A concrete repository where path `f` was committed as `a` (no
terminator) and the worktree copy is `a\n\n` (two introduced trailing
line feeds). -/
def repairEnv : GitEnv where
  insideWorktree := true
  head := "c"
  parents := fun c => if c = "c" then ["p"] else []
  authorName := fun _ => ""
  authorEmail := fun _ => ""
  diffTree := fun c => if c = "c" then [("M", "f")] else []
  revParse := fun spec => if spec = "HEAD:f" then some "old" else none
  blobSize := fun _ => 0
  blobContent := fun oid => if oid = "old" then [97] else []
  unstagedPaths := ["f"]
  stagedPaths := []
  worktreeClean := true
  rebaseInProgress := false
  gitCommitEnv := none

/-- Worktree for the double-repair scenario: `f` holds `a\n\n`. -/
def repairFs : FsState := fun p => if p = "f" then some [97, 10, 10] else none

/-- Claim C4 (counterexample): with HEAD content `a` and worktree content
`a\n\n`, running the n=0 repair twice removes two terminators in total —
the first run leaves `a\n`, which still qualifies, and the second run
strips it to `a`. -/
theorem repair_twice_counterexample :
    repairEnv.blobContent "old" = [97] ∧
    repairFs "f" = some [97, 10, 10] ∧
    (run_n0 repairEnv repairFs n0Args).1 "f" = some [97, 10] ∧
    (run_n0 repairEnv (run_n0 repairEnv repairFs n0Args).1 n0Args).1 "f" =
      some [97] := by
  decide

/-- Claim C4 (amended): the repair step modifies a path's on-disk bytes
only when the old content did not end in a line terminator and the new
content does; a path that does not qualify is left byte-identical, and
each single repair application removes at most one terminator (at most
two bytes, for a CRLF pair).  Repairing twice is a no-op the second time
when the once-stripped content no longer ends in a terminator, but can
remove a second terminator when it still does (see the counterexample). -/
theorem repair_step_amended :
    (∀ (fs : FsState) (path : String) (bytes : List Nat),
      fs path = some bytes → ends_with_newline bytes = false →
      strip_worktree_file fs path = .ok (fs, [])) ∧
    (∀ (env : GitEnv) (fs : FsState) (path : String) (dry : Bool)
       (hoid : String) (old new : List Nat),
      env.revParse ("HEAD:" ++ path) = some hoid →
      blob_bytes_limited env hoid = .ok old →
      fs path = some new →
      added_eof_newline old new = false →
      fix_path_against_head env fs path .worktree dry = .ok (fs, [], false)) ∧
    (∀ (env : GitEnv) (fs : FsState) (path : String)
       (hoid : String) (old new : List Nat),
      env.revParse ("HEAD:" ++ path) = some hoid →
      blob_bytes_limited env hoid = .ok old →
      fs path = some new →
      added_eof_newline old new = true →
      fix_path_against_head env fs path .worktree false =
        .ok ((fun p => if p = path then
                some (strip_one_trailing_newline new).1 else fs p),
             [Effect.writeFile path (strip_one_trailing_newline new).1],
             true) ∧
      new.length ≤ (strip_one_trailing_newline new).1.length + 2) ∧
    (∀ (env : GitEnv) (fs : FsState) (path : String)
       (hoid : String) (old new : List Nat),
      env.revParse ("HEAD:" ++ path) = some hoid →
      blob_bytes_limited env hoid = .ok old →
      fs path = some new →
      added_eof_newline old new = true →
      ends_with_newline (strip_one_trailing_newline new).1 = false →
      ∃ fs1 : FsState,
        fix_path_against_head env fs path .worktree false =
          .ok (fs1,
               [Effect.writeFile path (strip_one_trailing_newline new).1],
               true) ∧
        fix_path_against_head env fs1 path .worktree false =
          .ok (fs1, [], false)) := by
  have hnoop := fun (fs : FsState) (path : String) (bytes : List Nat)
      (hfs : fs path = some bytes) (hend : ends_with_newline bytes = false) =>
    strip_worktree_file_noop fs path bytes hfs hend
  have hskip : ∀ (env : GitEnv) (fs : FsState) (path : String) (dry : Bool)
      (hoid : String) (old new : List Nat),
      env.revParse ("HEAD:" ++ path) = some hoid →
      blob_bytes_limited env hoid = .ok old →
      fs path = some new →
      added_eof_newline old new = false →
      fix_path_against_head env fs path .worktree dry = .ok (fs, [], false) := by
    intro env fs path dry hoid old new hrev hbl hfs hadd
    have h1 : rev_parse_oid env ("HEAD:" ++ path) = .ok hoid := by
      rw [rev_parse_oid, hrev]
    rw [fix_path_against_head]
    simp only [h1, hbl, hfs]
    unfold fix_path_apply
    rw [if_pos hadd]
  have hfix : ∀ (env : GitEnv) (fs : FsState) (path : String)
      (hoid : String) (old new : List Nat),
      env.revParse ("HEAD:" ++ path) = some hoid →
      blob_bytes_limited env hoid = .ok old →
      fs path = some new →
      added_eof_newline old new = true →
      fix_path_against_head env fs path .worktree false =
        .ok ((fun p => if p = path then
                some (strip_one_trailing_newline new).1 else fs p),
             [Effect.writeFile path (strip_one_trailing_newline new).1],
             true) := by
    intro env fs path hoid old new hrev hbl hfs hadd
    have h1 : rev_parse_oid env ("HEAD:" ++ path) = .ok hoid := by
      rw [rev_parse_oid, hrev]
    have hend : ends_with_newline new = true := by
      rcases hq : ends_with_newline new with _ | _
      · rw [added_eof_newline, hq] at hadd
        simp at hadd
      · rfl
    rw [fix_path_against_head]
    simp only [h1, hbl, hfs]
    unfold fix_path_apply
    rw [if_neg (by rw [hadd]; simp), if_neg (by simp)]
    rw [strip_worktree_file_writes fs path new hfs hend]
  refine ⟨hnoop, hskip, ?_, ?_⟩
  · intro env fs path hoid old new hrev hbl hfs hadd
    exact ⟨hfix env fs path hoid old new hrev hbl hfs hadd, strip_len_le new⟩
  · intro env fs path hoid old new hrev hbl hfs hadd hend
    refine ⟨(fun p => if p = path then
        some (strip_one_trailing_newline new).1 else fs p),
      hfix env fs path hoid old new hrev hbl hfs hadd, ?_⟩
    have hadd2 : added_eof_newline old (strip_one_trailing_newline new).1 =
        false := by
      rw [added_eof_newline, hend]
      simp
    exact hskip env _ path false hoid old (strip_one_trailing_newline new).1
      hrev hbl (by simp) hadd2

/-- Witness for the amended C4: HEAD content `a`, worktree content `a\n`;
the first repair writes `a` and the second is a no-op. -/
theorem repair_step_amended_witness :
    ∃ fs1 : FsState,
      fix_path_against_head repairEnv
          (fun p => if p = "f" then some [97, 10] else none)
          "f" .worktree false =
        .ok (fs1, [Effect.writeFile "f"
              (strip_one_trailing_newline [97, 10]).1], true) ∧
      fix_path_against_head repairEnv fs1 "f" .worktree false =
        .ok (fs1, [], false) :=
  repair_step_amended.2.2.2 repairEnv
    (fun p => if p = "f" then some [97, 10] else none)
    "f" "old" [97] [97, 10] (by decide) rfl (by decide) (by decide) (by decide)
